import Mathlib

/-!
Verification of the privatized work-stealing thread pool
(`taskflow/threadpool/privatized_threadpool.hpp`).

The development is a shallow embedding of the sequential semantics of the
pool's data structures and routing code:

* `tf.RunQueue` embeds the bounded ring buffer `RunQueue<T, N>`: two cursors
  held as C++ `unsigned` (32-bit) values, a slot array addressed through the
  bit masks `IDX_MASK = N - 1` and `POS_MASK = 2N - 1`, and the per-slot
  state machine `EMPTY/BUSY/READY`.  In a sequential execution every
  compare-and-swap that follows a successful state inspection succeeds, so
  each operation is a pure state transformer; the `BUSY` phase is transient
  and invisible between operations.
* `tf.Pool` embeds the pool-level fields of `BasicPrivatizedThreadpool` that
  the submission and lifecycle code reads and writes, and the owner-thread
  ("sequential") part of `silent_async`, `async`, `wait_for_all`, `shutdown`
  and `spawn`.  Operations that would wait on a condition variable (or join
  worker threads) cannot complete in a sequential run; they are reported as
  `OpOutcome.blocked` carrying the state at the first wait.
* `tf.xorshift32`, `tf.victimWalk` and friends embed the stealer's RNG and
  victim scan.

Machine integers are modelled as `Nat` with explicit reduction modulo
`2 ^ 32` (`unsigned`) and `2 ^ 64` (`size_t`) at the operations where the
C++ code can wrap.
-/

namespace tf

/-- Slot states of a `RunQueue` entry (the anonymous `enum : uint8_t`
`EMPTY, BUSY, READY` in the source). -/
inductive SlotState where
  | EMPTY
  | BUSY
  | READY
  deriving DecidableEq, Repr

/-- One slot of the ring buffer (`struct Entry { state; w; }`).  The task
value is an `Option` so that a moved-out / never-written slot holds
`none`. -/
structure Entry (T : Type) where
  state : SlotState
  w : Option T
  deriving DecidableEq, Repr

/-- The ring buffer `RunQueue<T, N>`: cursors `_front` and `_back` and the
slot array `_array`.  The capacity `N` is a parameter of each operation
(mirroring the template parameter); `_array` is total on `Nat` but only
indices below `N` are ever addressed, via `&&& IDX_MASK N`. -/
structure RunQueue (T : Type) where
  _front : Nat
  _back : Nat
  _array : Nat → Entry T

/-- Index mask `N - 1` (`constexpr static unsigned IDX_MASK = N - 1`). -/
def IDX_MASK (N : Nat) : Nat := N - 1

/-- Position mask `2N - 1` (`constexpr static unsigned POS_MASK =
(N << 1) - 1`). -/
def POS_MASK (N : Nat) : Nat := (N <<< 1) - 1

/-- Modulus of C++ `unsigned` (32-bit) arithmetic, used by the cursor
updates of `RunQueue`. -/
def U32 : Nat := 2 ^ 32

/-- Modulus of C++ `size_t` (64-bit) arithmetic, used by the pool's
round-robin counter. -/
def U64 : Nat := 2 ^ 64

/-- Unsigned 32-bit increment: `x + 1` on a C++ `unsigned`. -/
def u32inc (x : Nat) : Nat := (x + 1) % U32

/-- Unsigned 32-bit decrement: `x - 1` on a C++ `unsigned` (wraps to
`2^32 - 1` at zero).  Stated in branch form; `u32dec_spec` proves it equal
to the modular form `(x + (2^32 - 1)) % 2^32` on every 32-bit value. -/
def u32dec (x : Nat) : Nat := if x = 0 then U32 - 1 else x - 1

/-- The freshly constructed queue: both cursors zero, every slot `EMPTY`
(the `RunQueue` constructor). -/
def RunQueue.init (T : Type) : RunQueue T :=
  { _front := 0, _back := 0, _array := fun _ => { state := SlotState.EMPTY, w := none } }

/-- `RunQueue::empty`: `front == back` (relaxed loads). -/
def RunQueue.empty {T : Type} (q : RunQueue T) : Bool :=
  q._front == q._back

/-- `RunQueue::push_front` (owner side): inspect the slot at
`front & IDX_MASK`; fail if it is not `EMPTY`; otherwise (the CAS
`EMPTY → BUSY` succeeds in a sequential run) advance `front` modulo `2N`,
move the task in and mark the slot `READY`. -/
def RunQueue.push_front {T : Type} (N : Nat) (q : RunQueue T) (w : T) : Bool × RunQueue T :=
  if (q._array (q._front &&& IDX_MASK N)).state ≠ SlotState.EMPTY then
    (false, q)
  else
    (true,
      { q with
          _front := u32inc q._front &&& POS_MASK N
          _array := fun i =>
            if i = q._front &&& IDX_MASK N then
              { state := SlotState.READY, w := some w }
            else q._array i })

/-- `RunQueue::pop_front` (owner side): fail on an empty queue; inspect the
slot at `(front - 1) & IDX_MASK`; fail unless it is `READY`; otherwise
retreat `front` modulo `2N`, move the task out and mark the slot
`EMPTY`. -/
def RunQueue.pop_front {T : Type} (N : Nat) (q : RunQueue T) : Bool × RunQueue T × Option T :=
  if q.empty then (false, q, none)
  else if (q._array (u32dec q._front &&& IDX_MASK N)).state ≠ SlotState.READY then
    (false, q, none)
  else
    (true,
      { q with
          _front := u32dec q._front &&& POS_MASK N
          _array := fun i =>
            if i = u32dec q._front &&& IDX_MASK N then
              { state := SlotState.EMPTY, w := none }
            else q._array i },
      (q._array (u32dec q._front &&& IDX_MASK N)).w)

/-- `RunQueue::push_back` (submitter/thief side, under the queue mutex):
inspect the slot at `(back - 1) & IDX_MASK`; fail unless it is `EMPTY`;
otherwise retreat `back` modulo `2N`, move the task in and mark the slot
`READY`. -/
def RunQueue.push_back {T : Type} (N : Nat) (q : RunQueue T) (w : T) : Bool × RunQueue T :=
  if (q._array (u32dec q._back &&& IDX_MASK N)).state ≠ SlotState.EMPTY then
    (false, q)
  else
    (true,
      { q with
          _back := u32dec q._back &&& POS_MASK N
          _array := fun i =>
            if i = u32dec q._back &&& IDX_MASK N then
              { state := SlotState.READY, w := some w }
            else q._array i })

/-- `RunQueue::pop_back` (thief side): fail on an empty queue; in a
sequential run the `try_lock` always succeeds; inspect the slot at
`back & IDX_MASK`; fail unless it is `READY`; otherwise move the task out,
advance `back` modulo `2N` and mark the slot `EMPTY`. -/
def RunQueue.pop_back {T : Type} (N : Nat) (q : RunQueue T) : Bool × RunQueue T × Option T :=
  if q.empty then (false, q, none)
  else if (q._array (q._back &&& IDX_MASK N)).state ≠ SlotState.READY then
    (false, q, none)
  else
    (true,
      { q with
          _back := u32inc q._back &&& POS_MASK N
          _array := fun i =>
            if i = q._back &&& IDX_MASK N then
              { state := SlotState.EMPTY, w := none }
            else q._array i },
      (q._array (q._back &&& IDX_MASK N)).w)

/-- Number of tasks held by the queue: the cursor distance `front - back`
taken modulo `2N` (both cursors live in `[0, 2N)`). -/
def RunQueue.size {T : Type} (N : Nat) (q : RunQueue T) : Nat :=
  (2 * N + q._front - q._back) % (2 * N)

/-- States of a `RunQueue` reachable, for a fixed capacity `N`, from the
freshly constructed queue by any sequence of the four queue operations
(a sequential execution). -/
inductive RunQueue.Reachable (T : Type) (N : Nat) : RunQueue T → Prop where
  | init : RunQueue.Reachable T N (RunQueue.init T)
  | push_front (q : RunQueue T) (w : T) :
      RunQueue.Reachable T N q → RunQueue.Reachable T N (q.push_front N w).2
  | pop_front (q : RunQueue T) :
      RunQueue.Reachable T N q → RunQueue.Reachable T N (q.pop_front N).2.1
  | push_back (q : RunQueue T) (w : T) :
      RunQueue.Reachable T N q → RunQueue.Reachable T N (q.push_back N w).2
  | pop_back (q : RunQueue T) :
      RunQueue.Reachable T N q → RunQueue.Reachable T N (q.pop_back N).2.1

/-- Abstraction relation for a `RunQueue` in a sequential execution: the
queue currently holds `s` tasks, its back cursor sits at position
`b ∈ [0, 2N)`, its front cursor at `(b + s) mod 2N`, the `s` slots
`(b + j) mod N` for `j < s` are `READY` and the remaining `N - s` slots are
`EMPTY`. -/
structure RunQueue.Abs {T : Type} (N : Nat) (q : RunQueue T) (b s : Nat) : Prop where
  hb : q._back = b
  hblt : b < 2 * N
  hsle : s ≤ N
  hf : q._front = (b + s) % (2 * N)
  hready : ∀ j, j < s → (q._array ((b + j) % N)).state = SlotState.READY
  hempty : ∀ j, s ≤ j → j < N → (q._array ((b + j) % N)).state = SlotState.EMPTY

/-- A queue with every slot `READY`: `push_front` and `push_back` fail on
it.  Used to witness the failure cases of `failed_queue_ops_frame`. -/
def fullQ : RunQueue Nat :=
  { _front := 4, _back := 0, _array := fun _ => { state := SlotState.READY, w := some 0 } }

/-- The run-queue capacity the pool instantiates
(`using WorkQueue = RunQueue<TaskType, 1024>`). -/
def QN : Nat := 1024

/-- What a call to `silent_async` did with the submitted task:
`inline` means the task was invoked on the caller's thread before the call
returned (zero-worker pool); `selfPush idx` means a worker pushed it onto
the front of its own queue `idx` (no condition variable is signalled);
`selfOverflow idx` means the worker's own queue was full and the task was
appended to the shared overflow queue under the pool mutex (again no
signal); `routedPush id` / `routedOverflow id` are the round-robin path,
which pushes onto the back of worker `id`'s queue (falling back to the
overflow queue when full) and then signals worker `id`'s condition
variable. -/
inductive SubmitEffect (T : Type) where
  | inline (t : T)
  | selfPush (idx : Nat)
  | selfOverflow (idx : Nat)
  | routedPush (id : Nat)
  | routedOverflow (id : Nat)
  deriving DecidableEq, Repr

/-- Which worker's condition variable the submission signalled
(`_works[id]->cv.notify_one()` runs only on the round-robin path). -/
def SubmitEffect.notifies {T : Type} : SubmitEffect T → Option Nat
  | SubmitEffect.routedPush id => some id
  | SubmitEffect.routedOverflow id => some id
  | _ => none

/-- The pool-level state of `BasicPrivatizedThreadpool` read and written by
the submission and lifecycle member functions.  Thread identities are
modelled as `Nat`.  Condition variables carry no state of their own and are
represented by the signals recorded in `SubmitEffect` / `OpOutcome`. -/
structure Pool (T : Type) where
  _task_queue : List T
  _threads : List Nat
  _worker_map : List (Nat × Nat)
  _owner : Nat
  _exiting : Bool
  _wait_for_all : Bool
  _works : List (RunQueue T)
  _next_queue : Nat
  _sync : Bool
  _coprimes : List Nat

/-- `std::unordered_map::find` on the worker map: the worker index
registered for thread `tid`, if any. -/
def findWorker (m : List (Nat × Nat)) (tid : Nat) : Option Nat :=
  (m.find? (fun e => e.1 == tid)).map (fun e => e.2)

/-- `num_workers()`: the size of `_threads`. -/
def Pool.num_workers {T : Type} (p : Pool T) : Nat := p._threads.length

/-- `num_tasks()`: the size of `_task_queue` (the shared overflow queue). -/
def Pool.num_tasks {T : Type} (p : Pool T) : Nat := p._task_queue.length

/-- `is_owner()`: whether the calling thread constructed the pool. -/
def Pool.is_owner {T : Type} (p : Pool T) (caller : Nat) : Bool := caller == p._owner

/-- `silent_async`, called from thread `caller` with task `t`.  Returns the
new pool state together with what happened to the task (see
`SubmitEffect`).  Mirrors the source: a zero-worker pool runs the task
inline; a non-owner caller registered in `_worker_map` pushes onto the
front of its own queue, falling back to the overflow queue; every other
caller picks worker `id = (++_next_queue) % _works.size()` (the `size_t`
increment wraps modulo `2^64`), pushes onto the back of queue `id` with the
same overflow fallback, and signals worker `id`. -/
def Pool.silent_async {T : Type} (p : Pool T) (caller : Nat) (t : T) :
    Pool T × SubmitEffect T :=
  if p.num_workers = 0 then
    (p, SubmitEffect.inline t)
  else
    match (if caller ≠ p._owner then findWorker p._worker_map caller else none) with
    | some idx =>
      if ((p._works.getD idx (RunQueue.init T)).push_front QN t).1 then
        ({ p with _works := p._works.set idx ((p._works.getD idx (RunQueue.init T)).push_front QN t).2 },
         SubmitEffect.selfPush idx)
      else
        ({ p with _task_queue := p._task_queue ++ [t] }, SubmitEffect.selfOverflow idx)
    | none =>
      if ((p._works.getD (((p._next_queue + 1) % U64) % p._works.length) (RunQueue.init T)).push_back QN t).1 then
        ({ p with
            _next_queue := (p._next_queue + 1) % U64
            _works := p._works.set (((p._next_queue + 1) % U64) % p._works.length)
              ((p._works.getD (((p._next_queue + 1) % U64) % p._works.length) (RunQueue.init T)).push_back QN t).2 },
         SubmitEffect.routedPush (((p._next_queue + 1) % U64) % p._works.length))
      else
        ({ p with
            _next_queue := (p._next_queue + 1) % U64
            _task_queue := p._task_queue ++ [t] },
         SubmitEffect.routedOverflow (((p._next_queue + 1) % U64) % p._works.length))

/-- `async`, called from thread `caller`: `c` is the user callable and
`shim` its type-erased wrapper (the lambda capturing the promise) as a
value of the opaque task type.  The third component models the future: on a
zero-worker pool the callable runs inline and the future already holds its
result; otherwise the shim is handed to `silent_async` and the future is
still pending (`none`). -/
def Pool.async {T R : Type} (p : Pool T) (caller : Nat) (c : Unit → R) (shim : T) :
    Pool T × Option (SubmitEffect T) × Option R :=
  if p.num_workers = 0 then
    (p, none, some (c ()))
  else
    ((p.silent_async caller shim).1, some (p.silent_async caller shim).2, none)

/-- Outcome of an owner-only lifecycle operation in a sequential run:
`ok` with the resulting pool state, `err` with the `std::runtime_error`
message and the (unchanged) pool state, or `blocked` when the operation
reaches a wait on `_empty_cv` (or a thread join) that only running workers
could satisfy; `blocked` carries the state at that first wait. -/
inductive OpOutcome (T : Type) where
  | ok (p : Pool T)
  | err (msg : String) (p : Pool T)
  | blocked (p : Pool T)

/-- `wait_for_all`, called from thread `caller`: non-owner callers get a
`runtime_error`; with no workers it returns at once; otherwise it sets
`_wait_for_all`, signals every worker and waits on `_empty_cv` until
`_sync` — if `_sync` already holds nothing blocks and both flags are
cleared, and in a sequential run it otherwise blocks. -/
def Pool.wait_for_all {T : Type} (p : Pool T) (caller : Nat) : OpOutcome T :=
  if caller ≠ p._owner then
    OpOutcome.err "Worker thread cannot wait for all" p
  else if p.num_workers = 0 then
    OpOutcome.ok p
  else if p._sync then
    OpOutcome.ok { p with _sync := false, _wait_for_all := false }
  else
    OpOutcome.blocked { p with _wait_for_all := true }

/-- `shutdown`, called from thread `caller`; `dummy` is the no-op
terminator task `[](){}`.  Non-owner callers get a `runtime_error`; with no
threads it returns at once; otherwise the owner sets `_wait_for_all` and
waits for `_sync` — when `_sync` already holds it proceeds (clears `_sync`,
latches `_exiting`, pushes the terminator onto the back of every worker
queue) up to the thread joins, and in a sequential run it blocks there. -/
def Pool.shutdown {T : Type} (p : Pool T) (caller : Nat) (dummy : T) : OpOutcome T :=
  if caller ≠ p._owner then
    OpOutcome.err "Worker thread cannot shut down the pool" p
  else if p._threads.length = 0 then
    OpOutcome.ok p
  else if p._sync then
    OpOutcome.blocked
      { p with
          _wait_for_all := true
          _sync := false
          _exiting := true
          _works := p._works.map (fun w => (w.push_back QN dummy).2) }
  else
    OpOutcome.blocked { p with _wait_for_all := true }

/-- The coprimes enumeration in `spawn`: every `i ∈ [1, W]` with
`gcd(i, W) = 1`, in increasing order. -/
def coprimesUpTo (W : Nat) : List Nat :=
  ((List.range W).map (fun i => i + 1)).filter (fun i => Nat.gcd i W == 1)

/-- The state mutations of a completed `spawn(n)` call: recompute
`_coprimes` for the new total `sz + n`, append `n` fresh workers and the
new thread identities `tids`, and register each new thread id at index
`i + sz` in `_worker_map`. -/
def Pool.spawnFinish {T : Type} (q : Pool T) (n : Nat) (tids : List Nat) : Pool T :=
  { q with
      _coprimes := coprimesUpTo (q._threads.length + n)
      _works := q._works ++ (List.range n).map (fun _ => RunQueue.init T)
      _threads := q._threads ++ tids
      _worker_map := q._worker_map ++
        tids.zip ((List.range n).map (fun i => i + q._threads.length)) }

/-- `spawn(n)`, called from thread `caller`; `tids` are the identities of
the `n` threads the OS hands back.  Non-owner callers get a
`runtime_error`; if workers already exist the pool first runs
`wait_for_all` (whose blocked/err outcome is propagated); a completed call
applies `spawnFinish`. -/
def Pool.spawn {T : Type} (p : Pool T) (caller : Nat) (n : Nat) (tids : List Nat) :
    OpOutcome T :=
  if caller ≠ p._owner then
    OpOutcome.err "Worker thread cannot spawn threads" p
  else
    match (if p._threads.length ≠ 0 then p.wait_for_all caller else OpOutcome.ok p) with
    | OpOutcome.err m q => OpOutcome.err m q
    | OpOutcome.blocked q => OpOutcome.blocked q
    | OpOutcome.ok q => OpOutcome.ok (q.spawnFinish n tids)

/-- First statement of `_xorshift32`: `x ^= x << 13` in 32-bit unsigned
arithmetic. -/
def xs1 (x : Nat) : Nat := (x ^^^ (x <<< 13)) % U32

/-- Second statement of `_xorshift32`: `x ^= x >> 17` (no truncation can
occur: both operands are below `2^32`). -/
def xs2 (x : Nat) : Nat := x ^^^ (x >>> 17)

/-- Third statement of `_xorshift32`: `x ^= x << 5` in 32-bit unsigned
arithmetic. -/
def xs3 (x : Nat) : Nat := (x ^^^ (x <<< 5)) % U32

/-- `_xorshift32`: one step of Marsaglia's xorshift RNG in 32-bit
unsigned arithmetic (`x ^= x<<13; x ^= x>>17; x ^= x<<5`). -/
def xorshift32 (x : Nat) : Nat := xs3 (xs2 (xs1 x))

/-- One advance of the victim cursor in `_steal`
(`victim += inc; if (victim >= queue_num) victim -= queue_num`). -/
def stealStep (W inc victim : Nat) : Nat :=
  if victim + inc ≥ W then victim + inc - W else victim + inc

/-- The sequence of victim indices probed by the steal loop: `k` probes
starting at `victim` with stride `inc` over `W` workers. -/
def victimWalk : Nat → Nat → Nat → Nat → List Nat
  | 0, _, _, _ => []
  | k + 1, W, inc, victim => victim :: victimWalk k W inc (stealStep W inc victim)

/-- The full victim sequence of one `_steal` call with RNG state `dice`:
the dice are advanced by `xorshift32`, the stride is
`coprimes[dice % coprimes.size()]`, the first victim `dice % W`, and the
loop makes `W` probes. -/
def stealProbes (coprimes : List Nat) (W : Nat) (dice : Nat) : List Nat :=
  victimWalk W W (coprimes.getD (xorshift32 dice % coprimes.length) 0) (xorshift32 dice % W)

/-- A freshly constructed pool with no workers, owned by thread `0`.  Used
as the concrete input of several witnesses. -/
def wPool : Pool Nat :=
  { _task_queue := [], _threads := [], _worker_map := [], _owner := 0,
    _exiting := false, _wait_for_all := false, _works := [], _next_queue := 0,
    _sync := false, _coprimes := [] }

/-- A pool with two idle workers (threads `101` and `102` at indices `0`
and `1`), owned by thread `7`, with the round-robin counter at `0`.  Used
as the concrete input of the routing counterexample and witnesses. -/
def cPool : Pool Nat :=
  { _task_queue := [], _threads := [101, 102], _worker_map := [(101, 0), (102, 1)],
    _owner := 7, _exiting := false, _wait_for_all := false,
    _works := [RunQueue.init Nat, RunQueue.init Nat], _next_queue := 0,
    _sync := false, _coprimes := [1] }

/-- The index mask computes reduction modulo `N` when `N` is a power of
two. -/
lemma and_idx_eq_mod {k N : Nat} (hN : N = 2 ^ k) (x : Nat) : x &&& IDX_MASK N = x % N := by
  subst hN
  simp [IDX_MASK, Nat.and_pow_two_sub_one_eq_mod x k]

/-- Doubling a power of two. -/
lemma two_mul_pow (k : Nat) : 2 * 2 ^ k = 2 ^ (k + 1) := by
  rw [Nat.pow_succ]
  ring

/-- The position mask computes reduction modulo `2N` when `N` is a power of
two. -/
lemma and_pos_eq_mod {k N : Nat} (hN : N = 2 ^ k) (x : Nat) :
    x &&& POS_MASK N = x % (2 * N) := by
  subst hN
  have h : (2 ^ k) <<< 1 = 2 ^ (k + 1) := by
    rw [Nat.shiftLeft_eq, pow_one, ← Nat.pow_succ]
  rw [POS_MASK, h, Nat.and_pow_two_sub_one_eq_mod, two_mul_pow]

/-- `2N` divides `2^32` for capacities `N = 2^k` with `k ≤ 31`. -/
lemma two_mul_dvd_u32 {k N : Nat} (hN : N = 2 ^ k) (hk : k ≤ 31) : (2 * N) ∣ U32 := by
  subst hN
  rw [U32, two_mul_pow]
  exact Nat.pow_dvd_pow 2 (by omega)

/-- `N` divides `2^32` for capacities `N = 2^k` with `k ≤ 31`. -/
lemma dvd_u32 {k N : Nat} (hN : N = 2 ^ k) (hk : k ≤ 31) : N ∣ U32 := by
  subst hN
  exact Nat.pow_dvd_pow 2 (by omega)

/-- A 32-bit increment agrees with an exact increment modulo any divisor of
`2^32`. -/
lemma u32inc_mod {d : Nat} (hd : d ∣ U32) (x : Nat) : u32inc x % d = (x + 1) % d := by
  rw [u32inc, Nat.mod_mod_of_dvd _ hd]

/-- Adding `m - 1` and reducing modulo `m`, then modulo a divisor `d` of
`m`, is the same as adding `d - 1` and reducing modulo `d`.  This is the
fact that lets the unsigned wrap-around decrement stand in for a decrement
modulo `2N` or `N`. -/
lemma sub_one_mod_mod (x m d : Nat) (hd : 0 < d) (hdm : d ∣ m) (hm : 0 < m) :
    (x + (m - 1)) % m % d = (x + (d - 1)) % d := by
  rw [Nat.mod_mod_of_dvd _ hdm]
  obtain ⟨c, rfl⟩ := hdm
  have hc : 0 < c := by
    rcases Nat.eq_zero_or_pos c with h | h
    · subst h
      simp at hm
    · exact h
  have h1 : d * c = d * (c - 1) + d := by
    cases c with
    | zero => omega
    | succ c' => rw [Nat.mul_succ, Nat.succ_sub_one]
  have key : x + (d * c - 1) = (x + (d - 1)) + d * (c - 1) := by
    have h2 := h1
    generalize d * (c - 1) = A at h2 ⊢
    generalize d * c = B at h2 ⊢
    omega
  rw [key, Nat.add_mul_mod_self_left]

/-- Fidelity of `u32dec`: on every 32-bit value the branch form agrees
with the wrap-around expression `(x + (2^32 - 1)) % 2^32` computed by the
hardware. -/
lemma u32dec_spec (x : Nat) (hx : x < U32) : u32dec x = (x + (U32 - 1)) % U32 := by
  unfold u32dec U32 at *
  by_cases h0 : x = 0
  · subst h0
    simp
  · rw [if_neg h0, Nat.mod_eq_sub_mod (by omega), Nat.mod_eq_of_lt (by omega)]
    omega

/-- A 32-bit decrement agrees with a decrement modulo any positive `d`
dividing `2^32`, hence modulo `2N` and `N` for power-of-two capacities. -/
lemma u32dec_mod {d : Nat} (hd : 0 < d) (hdvd : d ∣ U32) (x : Nat) :
    u32dec x % d = (x + (d - 1)) % d := by
  unfold u32dec
  by_cases h0 : x = 0
  · subst h0
    rw [if_pos rfl]
    have h1 := sub_one_mod_mod 0 U32 d hd hdvd (by norm_num [U32])
    rwa [Nat.mod_mod_of_dvd _ hdvd] at h1
  · rw [if_neg h0]
    have h3 : (x - 1) + d = x + (d - 1) := by omega
    calc (x - 1) % d = ((x - 1) + d) % d := by rw [Nat.add_mod_right]
      _ = (x + (d - 1)) % d := by rw [h3]

/-- A 32-bit decrement agrees with a decrement modulo `2N`. -/
lemma u32dec_mod_pos {k N : Nat} (hN : N = 2 ^ k) (hk : k ≤ 31) (x : Nat) :
    u32dec x % (2 * N) = (x + (2 * N - 1)) % (2 * N) := by
  have h0 : 0 < N := hN ▸ Nat.pos_pow_of_pos k (by omega)
  exact u32dec_mod (by omega) (two_mul_dvd_u32 hN hk) x

/-- A 32-bit decrement agrees with a decrement modulo `N`. -/
lemma u32dec_mod_idx {k N : Nat} (hN : N = 2 ^ k) (hk : k ≤ 31) (x : Nat) :
    u32dec x % N = (x + (N - 1)) % N := by
  have h0 : 0 < N := hN ▸ Nat.pos_pow_of_pos k (by omega)
  exact u32dec_mod h0 (dvd_u32 hN hk) x

/-- `N` divides `2N`. -/
lemma n_dvd_two_mul (N : Nat) : N ∣ 2 * N := ⟨2, by ring⟩

/-- Reducing modulo `2N` and then modulo `N` is reducing modulo `N`. -/
lemma mod_two_mul_mod (x N : Nat) : x % (2 * N) % N = x % N :=
  Nat.mod_mod_of_dvd x (n_dvd_two_mul N)

/-- Cancellation of a common summand under `% N` for small offsets. -/
lemma add_mod_left_inj {N b j s : Nat} (hj : j < N) (hs : s < N)
    (h : (b + j) % N = (b + s) % N) : j = s := by
  have h2 : j ≡ s [MOD N] := Nat.ModEq.add_left_cancel' b h
  have h3 : j % N = s % N := h2
  rwa [Nat.mod_eq_of_lt hj, Nat.mod_eq_of_lt hs] at h3

/-- Capacities are positive. -/
lemma npos {k N : Nat} (hN : N = 2 ^ k) : 0 < N := by
  subst hN
  exact Nat.pos_pow_of_pos k (by omega)

/-- On a full queue (`s = N`) the slot under the front cursor is `READY`,
so `push_front` fails and returns the queue unchanged. -/
lemma push_front_full {T : Type} {k N b : Nat} (hN : N = 2 ^ k) (hk : k ≤ 31)
    {q : RunQueue T} (hA : q.Abs N b N) (w : T) :
    q.push_front N w = (false, q) := by
  have h0 : 0 < N := npos hN
  have hidx : q._front &&& IDX_MASK N = (b + 0) % N := by
    rw [and_idx_eq_mod hN, hA.hf, mod_two_mul_mod, Nat.add_mod_right, Nat.add_zero]
  have hst : (q._array (q._front &&& IDX_MASK N)).state = SlotState.READY := by
    rw [hidx]
    exact hA.hready 0 h0
  have hcond : (q._array (q._front &&& IDX_MASK N)).state ≠ SlotState.EMPTY := by
    rw [hst]
    decide
  unfold RunQueue.push_front
  rw [if_pos hcond]

/-- On a non-full queue (`s < N`) the slot under the front cursor is
`EMPTY`, so `push_front` succeeds: the front cursor advances modulo `2N`,
the task is stored `READY` in that slot, and the queue now holds `s + 1`
tasks. -/
lemma push_front_ok {T : Type} {k N b s : Nat} (hN : N = 2 ^ k) (hk : k ≤ 31)
    (hs : s < N) {q : RunQueue T} (hA : q.Abs N b s) (w : T) :
    (q.push_front N w).1 = true ∧
    (q.push_front N w).2._front = (q._front + 1) % (2 * N) ∧
    (q.push_front N w).2._array (q._front &&& IDX_MASK N) =
      { state := SlotState.READY, w := some w } ∧
    (q.push_front N w).2.Abs N b (s + 1) := by
  have h0 : 0 < N := npos hN
  have hidx : q._front &&& IDX_MASK N = (b + s) % N := by
    rw [and_idx_eq_mod hN, hA.hf, mod_two_mul_mod]
  have hst : (q._array (q._front &&& IDX_MASK N)).state = SlotState.EMPTY := by
    rw [hidx]
    exact hA.hempty s le_rfl hs
  have hcond : ¬ ((q._array (q._front &&& IDX_MASK N)).state ≠ SlotState.EMPTY) := by
    simp [hst]
  unfold RunQueue.push_front
  rw [if_neg hcond]
  refine ⟨rfl, ?_, ?_, ?_⟩
  · show u32inc q._front &&& POS_MASK N = (q._front + 1) % (2 * N)
    rw [and_pos_eq_mod hN, u32inc_mod (two_mul_dvd_u32 hN hk)]
  · simp
  · refine ⟨hA.hb, hA.hblt, by omega, ?_, ?_, ?_⟩
    · show u32inc q._front &&& POS_MASK N = (b + (s + 1)) % (2 * N)
      rw [and_pos_eq_mod hN, u32inc_mod (two_mul_dvd_u32 hN hk), hA.hf,
        Nat.mod_add_mod, ← Nat.add_assoc]
    · intro j hj
      simp only [hidx]
      by_cases hje : j = s
      · subst hje
        simp
      · have hne : (b + j) % N ≠ (b + s) % N := fun hcon =>
          hje (add_mod_left_inj (by omega) hs hcon)
        simp only [if_neg hne]
        exact hA.hready j (by omega)
    · intro j hj1 hj2
      simp only [hidx]
      have hne : (b + j) % N ≠ (b + s) % N := fun hcon =>
        (by omega : j ≠ s) (add_mod_left_inj hj2 hs hcon)
      simp only [if_neg hne]
      exact hA.hempty j (by omega) hj2

/-- Adding `2N` does not change a residue modulo `N`. -/
lemma add_two_mul_mod (x N : Nat) : (x + 2 * N) % N = x % N := by
  have h : x + 2 * N = x + N + N := by omega
  rw [h, Nat.add_mod_right, Nat.add_mod_right]

/-- On an empty queue (`s = 0`) the cursors coincide, so `pop_front` fails
and returns the queue unchanged. -/
lemma pop_front_empty {T : Type} {k N b : Nat} (hN : N = 2 ^ k)
    {q : RunQueue T} (hA : q.Abs N b 0) :
    q.pop_front N = (false, q, none) := by
  have hfb : q._front = q._back := by
    rw [hA.hf, hA.hb, Nat.add_zero, Nat.mod_eq_of_lt hA.hblt]
  have hemp : q.empty = true := by
    rw [RunQueue.empty, hfb]
    simp
  unfold RunQueue.pop_front
  rw [if_pos hemp]

/-- On a non-empty queue (`s > 0`) the slot before the front cursor is
`READY`, so `pop_front` succeeds: the front cursor retreats modulo `2N`,
that slot becomes `EMPTY`, and the queue now holds `s - 1` tasks. -/
lemma pop_front_ok {T : Type} {k N b s : Nat} (hN : N = 2 ^ k) (hk : k ≤ 31)
    (hs : 0 < s) {q : RunQueue T} (hA : q.Abs N b s) :
    (q.pop_front N).1 = true ∧ (q.pop_front N).2.1.Abs N b (s - 1) := by
  have h0 : 0 < N := npos hN
  have hsle := hA.hsle
  have hfneb : q._front ≠ q._back := by
    rw [hA.hf, hA.hb]
    intro hcon
    have h1 : (b + s) % (2 * N) = (b + 0) % (2 * N) := by
      rw [hcon, Nat.add_zero, Nat.mod_eq_of_lt hA.hblt]
    have h2 : s = 0 := add_mod_left_inj (by omega) (by omega) h1
    omega
  have hif1 : ¬ (q.empty = true) := by
    rw [RunQueue.empty]
    simp [hfneb]
  have hidx : u32dec q._front &&& IDX_MASK N = (b + (s - 1)) % N := by
    rw [and_idx_eq_mod hN, u32dec_mod_idx hN hk, hA.hf, ← Nat.mod_add_mod,
      mod_two_mul_mod, Nat.mod_add_mod]
    have h3 : b + s + (N - 1) = (b + (s - 1)) + N := by omega
    rw [h3, Nat.add_mod_right]
  have hst : (q._array (u32dec q._front &&& IDX_MASK N)).state = SlotState.READY := by
    rw [hidx]
    exact hA.hready (s - 1) (by omega)
  have hif2 : ¬ ((q._array (u32dec q._front &&& IDX_MASK N)).state ≠ SlotState.READY) := by
    simp [hst]
  unfold RunQueue.pop_front
  rw [if_neg hif1, if_neg hif2]
  refine ⟨rfl, ?_, ?_, by omega, ?_, ?_, ?_⟩
  · exact hA.hb
  · exact hA.hblt
  · show u32dec q._front &&& POS_MASK N = (b + (s - 1)) % (2 * N)
    rw [and_pos_eq_mod hN, u32dec_mod_pos hN hk, hA.hf, Nat.mod_add_mod]
    have h4 : b + s + (2 * N - 1) = (b + (s - 1)) + 2 * N := by omega
    rw [h4, Nat.add_mod_right]
  · intro j hj
    simp only [hidx]
    have hne : (b + j) % N ≠ (b + (s - 1)) % N := fun hcon =>
      (by omega : j ≠ s - 1) (add_mod_left_inj (by omega) (by omega) hcon)
    simp only [if_neg hne]
    exact hA.hready j (by omega)
  · intro j hj1 hj2
    simp only [hidx]
    by_cases hje : j = s - 1
    · subst hje
      simp
    · have hne : (b + j) % N ≠ (b + (s - 1)) % N := fun hcon =>
        hje (add_mod_left_inj hj2 (by omega) hcon)
      simp only [if_neg hne]
      exact hA.hempty j (by omega) hj2

/-- On a full queue (`s = N`) the slot before the back cursor is `READY`,
so `push_back` fails and returns the queue unchanged. -/
lemma push_back_full {T : Type} {k N b : Nat} (hN : N = 2 ^ k) (hk : k ≤ 31)
    {q : RunQueue T} (hA : q.Abs N b N) (w : T) :
    q.push_back N w = (false, q) := by
  have h0 : 0 < N := npos hN
  have hidx : u32dec q._back &&& IDX_MASK N = (b + (N - 1)) % N := by
    rw [and_idx_eq_mod hN, u32dec_mod_idx hN hk, hA.hb]
  have hst : (q._array (u32dec q._back &&& IDX_MASK N)).state = SlotState.READY := by
    rw [hidx]
    exact hA.hready (N - 1) (by omega)
  have hcond : (q._array (u32dec q._back &&& IDX_MASK N)).state ≠ SlotState.EMPTY := by
    rw [hst]
    decide
  unfold RunQueue.push_back
  rw [if_pos hcond]

/-- On a non-full queue (`s < N`) the slot before the back cursor is
`EMPTY`, so `push_back` succeeds: the back cursor retreats modulo `2N`,
the task is stored `READY` in that slot, and the queue now holds `s + 1`
tasks (with the abstract back position retreating accordingly). -/
lemma push_back_ok {T : Type} {k N b s : Nat} (hN : N = 2 ^ k) (hk : k ≤ 31)
    (hs : s < N) {q : RunQueue T} (hA : q.Abs N b s) (w : T) :
    (q.push_back N w).1 = true ∧
    (q.push_back N w).2.Abs N ((b + (2 * N - 1)) % (2 * N)) (s + 1) := by
  have h0 : 0 < N := npos hN
  have hsle := hA.hsle
  have hblt := hA.hblt
  have hidx : u32dec q._back &&& IDX_MASK N = (b + (N - 1)) % N := by
    rw [and_idx_eq_mod hN, u32dec_mod_idx hN hk, hA.hb]
  have hst : (q._array (u32dec q._back &&& IDX_MASK N)).state = SlotState.EMPTY := by
    rw [hidx]
    exact hA.hempty (N - 1) (by omega) (by omega)
  have hcond : ¬ ((q._array (u32dec q._back &&& IDX_MASK N)).state ≠ SlotState.EMPTY) := by
    simp [hst]
  have hslot : ∀ j, ((b + (2 * N - 1)) % (2 * N) + j) % N = (b + (2 * N - 1) + j) % N := by
    intro j
    rw [← Nat.mod_add_mod, mod_two_mul_mod, Nat.mod_add_mod]
  unfold RunQueue.push_back
  rw [if_neg hcond]
  refine ⟨rfl, ?_, Nat.mod_lt _ (by omega), by omega, ?_, ?_, ?_⟩
  · show u32dec q._back &&& POS_MASK N = (b + (2 * N - 1)) % (2 * N)
    rw [and_pos_eq_mod hN, u32dec_mod_pos hN hk, hA.hb]
  · show q._front = ((b + (2 * N - 1)) % (2 * N) + (s + 1)) % (2 * N)
    rw [Nat.mod_add_mod]
    have h4 : b + (2 * N - 1) + (s + 1) = (b + s) + 2 * N := by omega
    rw [h4, Nat.add_mod_right]
    exact hA.hf
  · intro j hj
    rw [hslot j]
    simp only [hidx]
    by_cases hj0 : j = 0
    · subst hj0
      have h6 : b + (2 * N - 1) + 0 = (b + (N - 1)) + N := by omega
      rw [h6, Nat.add_mod_right]
      simp
    · have h8 : b + (2 * N - 1) + j = (b + (j - 1)) + 2 * N := by omega
      rw [h8, add_two_mul_mod]
      have hne : (b + (j - 1)) % N ≠ (b + (N - 1)) % N := fun hcon =>
        (by omega : j - 1 ≠ N - 1) (add_mod_left_inj (by omega) (by omega) hcon)
      simp only [if_neg hne]
      exact hA.hready (j - 1) (by omega)
  · intro j hj1 hj2
    rw [hslot j]
    simp only [hidx]
    have h8 : b + (2 * N - 1) + j = (b + (j - 1)) + 2 * N := by omega
    rw [h8, add_two_mul_mod]
    have hne : (b + (j - 1)) % N ≠ (b + (N - 1)) % N := fun hcon =>
      (by omega : j - 1 ≠ N - 1) (add_mod_left_inj (by omega) (by omega) hcon)
    simp only [if_neg hne]
    exact hA.hempty (j - 1) (by omega) (by omega)

/-- On an empty queue (`s = 0`) the cursors coincide, so `pop_back` fails
and returns the queue unchanged. -/
lemma pop_back_empty {T : Type} {k N b : Nat} (hN : N = 2 ^ k)
    {q : RunQueue T} (hA : q.Abs N b 0) :
    q.pop_back N = (false, q, none) := by
  have hfb : q._front = q._back := by
    rw [hA.hf, hA.hb, Nat.add_zero, Nat.mod_eq_of_lt hA.hblt]
  have hemp : q.empty = true := by
    rw [RunQueue.empty, hfb]
    simp
  unfold RunQueue.pop_back
  rw [if_pos hemp]

/-- On a non-empty queue (`s > 0`) the slot under the back cursor is
`READY`, so `pop_back` succeeds: the back cursor advances modulo `2N`,
that slot becomes `EMPTY`, and the queue now holds `s - 1` tasks. -/
lemma pop_back_ok {T : Type} {k N b s : Nat} (hN : N = 2 ^ k) (hk : k ≤ 31)
    (hs : 0 < s) {q : RunQueue T} (hA : q.Abs N b s) :
    (q.pop_back N).1 = true ∧ (q.pop_back N).2.1.Abs N ((b + 1) % (2 * N)) (s - 1) := by
  have h0 : 0 < N := npos hN
  have hsle := hA.hsle
  have hblt := hA.hblt
  have hfneb : q._front ≠ q._back := by
    rw [hA.hf, hA.hb]
    intro hcon
    have h1 : (b + s) % (2 * N) = (b + 0) % (2 * N) := by
      rw [hcon, Nat.add_zero, Nat.mod_eq_of_lt hA.hblt]
    have h2 : s = 0 := add_mod_left_inj (by omega) (by omega) h1
    omega
  have hif1 : ¬ (q.empty = true) := by
    rw [RunQueue.empty]
    simp [hfneb]
  have hidx : q._back &&& IDX_MASK N = (b + 0) % N := by
    rw [and_idx_eq_mod hN, hA.hb, Nat.add_zero]
  have hst : (q._array (q._back &&& IDX_MASK N)).state = SlotState.READY := by
    rw [hidx]
    exact hA.hready 0 hs
  have hif2 : ¬ ((q._array (q._back &&& IDX_MASK N)).state ≠ SlotState.READY) := by
    simp [hst]
  have hslot : ∀ j, ((b + 1) % (2 * N) + j) % N = (b + 1 + j) % N := by
    intro j
    rw [← Nat.mod_add_mod, mod_two_mul_mod, Nat.mod_add_mod]
  unfold RunQueue.pop_back
  rw [if_neg hif1, if_neg hif2]
  refine ⟨rfl, ?_, Nat.mod_lt _ (by omega), by omega, ?_, ?_, ?_⟩
  · show u32inc q._back &&& POS_MASK N = (b + 1) % (2 * N)
    rw [and_pos_eq_mod hN, u32inc_mod (two_mul_dvd_u32 hN hk), hA.hb]
  · show q._front = ((b + 1) % (2 * N) + (s - 1)) % (2 * N)
    rw [Nat.mod_add_mod]
    have h4 : b + 1 + (s - 1) = b + s := by omega
    rw [h4]
    exact hA.hf
  · intro j hj
    rw [hslot j]
    simp only [hidx]
    have h6 : b + 1 + j = b + (j + 1) := by omega
    rw [h6]
    have hne : (b + (j + 1)) % N ≠ (b + 0) % N := fun hcon =>
      (by omega : j + 1 ≠ 0) (add_mod_left_inj (by omega) (by omega) hcon)
    simp only [if_neg hne]
    exact hA.hready (j + 1) (by omega)
  · intro j hj1 hj2
    rw [hslot j]
    simp only [hidx]
    by_cases hjN : j + 1 = N
    · have h6 : b + 1 + j = (b + 0) + N := by omega
      rw [h6, Nat.add_mod_right]
      simp
    · have h6 : b + 1 + j = b + (j + 1) := by omega
      rw [h6]
      have hne : (b + (j + 1)) % N ≠ (b + 0) % N := fun hcon =>
        (by omega : j + 1 ≠ 0) (add_mod_left_inj (by omega) (by omega) hcon)
      simp only [if_neg hne]
      exact hA.hempty (j + 1) (by omega) (by omega)

/-- Every queue state reachable in a sequential execution is abstracted by
some back position `b` and task count `s`. -/
lemma reachable_abs {T : Type} {k N : Nat} (hN : N = 2 ^ k) (hk : k ≤ 31)
    {q : RunQueue T} (hr : RunQueue.Reachable T N q) : ∃ b s, q.Abs N b s := by
  have h0 : 0 < N := npos hN
  induction hr with
  | init =>
    refine ⟨0, 0, rfl, by omega, by omega, by simp [RunQueue.init], ?_, ?_⟩
    · intro j hj
      omega
    · intro j hj1 hj2
      rfl
  | push_front q w _ ih =>
    obtain ⟨b, s, hA⟩ := ih
    by_cases hs : s < N
    · exact ⟨b, s + 1, (push_front_ok hN hk hs hA w).2.2.2⟩
    · have hsN : s = N := by
        have := hA.hsle
        omega
      have hA2 : q.Abs N b N := hsN ▸ hA
      rw [push_front_full hN hk hA2 w]
      exact ⟨b, N, hA2⟩
  | pop_front q _ ih =>
    obtain ⟨b, s, hA⟩ := ih
    by_cases hs : 0 < s
    · exact ⟨b, s - 1, (pop_front_ok hN hk hs hA).2⟩
    · have hs0 : s = 0 := by omega
      subst hs0
      rw [pop_front_empty hN hA]
      exact ⟨b, 0, hA⟩
  | push_back q w _ ih =>
    obtain ⟨b, s, hA⟩ := ih
    by_cases hs : s < N
    · exact ⟨(b + (2 * N - 1)) % (2 * N), s + 1, (push_back_ok hN hk hs hA w).2⟩
    · have hsN : s = N := by
        have := hA.hsle
        omega
      have hA2 : q.Abs N b N := hsN ▸ hA
      rw [push_back_full hN hk hA2 w]
      exact ⟨b, N, hA2⟩
  | pop_back q _ ih =>
    obtain ⟨b, s, hA⟩ := ih
    by_cases hs : 0 < s
    · exact ⟨(b + 1) % (2 * N), s - 1, (pop_back_ok hN hk hs hA).2⟩
    · have hs0 : s = 0 := by omega
      subst hs0
      rw [pop_back_empty hN hA]
      exact ⟨b, 0, hA⟩

/-- The cursor-distance size of an abstracted queue is its task count. -/
lemma abs_size_eq {T : Type} {N b s : Nat} (h0 : 0 < N) {q : RunQueue T}
    (hA : q.Abs N b s) : q.size N = s := by
  have hsle := hA.hsle
  have hblt := hA.hblt
  unfold RunQueue.size
  rw [hA.hf, hA.hb]
  by_cases h : b + s < 2 * N
  · rw [Nat.mod_eq_of_lt h]
    have h1 : 2 * N + (b + s) - b = 2 * N + s := by omega
    rw [h1, Nat.add_mod_left, Nat.mod_eq_of_lt (by omega)]
  · have h2 : (b + s) % (2 * N) = b + s - 2 * N := by
      rw [Nat.mod_eq_sub_mod (by omega), Nat.mod_eq_of_lt (by omega)]
    rw [h2]
    have h3 : 2 * N + (b + s - 2 * N) - b = s := by omega
    rw [h3, Nat.mod_eq_of_lt (by omega)]

/-- C2: on every sequentially reachable `RunQueue` of power-of-two capacity
`N`, `push_front` returns `false` exactly when the queue is full (holds `N`
tasks), which is exactly when the slot at index `front & IDX_MASK` is not
`EMPTY`; and on a queue holding fewer than `N` tasks it succeeds, advances
the front cursor modulo `2N`, and stores the task `READY` in that slot. -/
theorem push_front_fails_iff_full {T : Type} (k N : Nat) (hk : k ≤ 31)
    (hN : N = 2 ^ k) (h2 : 2 < N) (q : RunQueue T) (w : T)
    (hr : RunQueue.Reachable T N q) :
    ((q.push_front N w).1 = false ↔ q.size N = N) ∧
    ((q.push_front N w).1 = false ↔
      (q._array (q._front &&& IDX_MASK N)).state ≠ SlotState.EMPTY) ∧
    (q.size N < N →
      (q.push_front N w).1 = true ∧
      (q.push_front N w).2._front = (q._front + 1) % (2 * N) ∧
      (q.push_front N w).2._array (q._front &&& IDX_MASK N) =
        { state := SlotState.READY, w := some w }) := by
  have h0 : 0 < N := npos hN
  obtain ⟨b, s, hA⟩ := reachable_abs hN hk hr
  have hsize : q.size N = s := abs_size_eq h0 hA
  have hsle := hA.hsle
  refine ⟨?_, ?_, ?_⟩
  · by_cases hs : s < N
    · have hok := (push_front_ok hN hk hs hA w).1
      constructor
      · intro hfalse
        rw [hok] at hfalse
        exact absurd hfalse (by simp)
      · intro hfull
        omega
    · have hsN : s = N := by omega
      subst hsN
      rw [push_front_full hN hk hA w]
      simp [hsize]
  · unfold RunQueue.push_front
    by_cases hc : (q._array (q._front &&& IDX_MASK N)).state = SlotState.EMPTY
    · rw [if_neg (by simp [hc])]
      simp [hc]
    · rw [if_pos hc]
      simp [hc]
  · intro hlt
    rw [hsize] at hlt
    have hok := push_front_ok hN hk hlt hA w
    exact ⟨hok.1, hok.2.1, hok.2.2.1⟩

/-- Witness for `push_front_fails_iff_full`: the freshly constructed queue
of capacity `4 = 2^2` holds `0 < 4` tasks, so a push succeeds and fills
slot `0`. -/
theorem push_front_fails_iff_full_witness :
    ¬ ((RunQueue.init Nat).push_front 4 7).1 = false ∧
    ((RunQueue.init Nat).push_front 4 7).2._front = 1 ∧
    ((RunQueue.init Nat).push_front 4 7).2._array 0 =
      { state := SlotState.READY, w := some 7 } := by
  have h := push_front_fails_iff_full 2 4 (by omega) (by norm_num) (by omega)
    (RunQueue.init Nat) 7 RunQueue.Reachable.init
  have hsz : (RunQueue.init Nat).size 4 = 0 := by decide
  have h3 := h.2.2 (by omega)
  refine ⟨?_, ?_, ?_⟩
  · rw [h3.1]
    decide
  · have := h3.2.1
    simpa using this
  · have := h3.2.2
    simpa using this

/-- C10: every `RunQueue` operation that returns `false` leaves the queue
exactly as it was: cursors, slot states and stored task values are all
unchanged, and for the pop operations no task is produced. -/
theorem failed_queue_ops_frame {T : Type} (N : Nat) (q : RunQueue T) (w : T) :
    ((q.push_front N w).1 = false → (q.push_front N w).2 = q) ∧
    ((q.pop_front N).1 = false → (q.pop_front N).2 = (q, none)) ∧
    ((q.push_back N w).1 = false → (q.push_back N w).2 = q) ∧
    ((q.pop_back N).1 = false → (q.pop_back N).2 = (q, none)) := by
  refine ⟨?_, ?_, ?_, ?_⟩
  · intro h
    by_cases hc : (q._array (q._front &&& IDX_MASK N)).state = SlotState.EMPTY
    · exfalso
      simp [RunQueue.push_front, hc] at h
    · simp [RunQueue.push_front, hc]
  · intro h
    by_cases he : q.empty = true
    · simp [RunQueue.pop_front, he]
    · by_cases hc : (q._array (u32dec q._front &&& IDX_MASK N)).state = SlotState.READY
      · exfalso
        simp [RunQueue.pop_front, he, hc] at h
      · simp [RunQueue.pop_front, he, hc]
  · intro h
    by_cases hc : (q._array (u32dec q._back &&& IDX_MASK N)).state = SlotState.EMPTY
    · exfalso
      simp [RunQueue.push_back, hc] at h
    · simp [RunQueue.push_back, hc]
  · intro h
    by_cases he : q.empty = true
    · simp [RunQueue.pop_back, he]
    · by_cases hc : (q._array (q._back &&& IDX_MASK N)).state = SlotState.READY
      · exfalso
        simp [RunQueue.pop_back, he, hc] at h
      · simp [RunQueue.pop_back, he, hc]

/-- Witness for `failed_queue_ops_frame` at capacity `4`: a full queue
(for the failing pushes) and the fresh queue (for the failing pops). -/
theorem failed_queue_ops_frame_witness :
    (fullQ.push_front 4 7).2 = fullQ ∧
    (fullQ.push_back 4 7).2 = fullQ ∧
    ((RunQueue.init Nat).pop_front 4).2 = (RunQueue.init Nat, none) ∧
    ((RunQueue.init Nat).pop_back 4).2 = (RunQueue.init Nat, none) :=
  ⟨(failed_queue_ops_frame 4 fullQ 7).1 (by decide),
   (failed_queue_ops_frame 4 fullQ 7).2.2.1 (by decide),
   (failed_queue_ops_frame 4 (RunQueue.init Nat) 7).2.1 (by decide),
   (failed_queue_ops_frame 4 (RunQueue.init Nat) 7).2.2.2 (by decide)⟩

/-- A nonzero value has a set bit. -/
lemma exists_testBit {x : Nat} (hx : x ≠ 0) : ∃ i, x.testBit i = true := by
  by_contra hcon
  push_neg at hcon
  refine hx (Nat.zero_of_testBit_eq_false fun i => ?_)
  have h := hcon i
  simpa using h

/-- An `x ^= x << c` step (with 32-bit truncation) sends nonzero 32-bit
values to nonzero values: the lowest set bit of `x` survives. -/
lemma xs_shl_ne_zero {x : Nat} (c : Nat) (hc : 0 < c) (hx : x ≠ 0) (hlt : x < U32) :
    (x ^^^ (x <<< c)) % U32 ≠ 0 := by
  have hex := exists_testBit hx
  have hbit : x.testBit (Nat.find hex) = true := Nat.find_spec hex
  have hmin : ∀ m, m < Nat.find hex → x.testBit m = false := by
    intro m hm
    have h := Nat.find_min hex hm
    simpa using h
  have hl32 : Nat.find hex < 32 := by
    by_contra hcon
    push_neg at hcon
    have hxlt : x < 2 ^ Nat.find hex :=
      lt_of_lt_of_le hlt (Nat.pow_le_pow_right (by omega) hcon)
    rw [Nat.testBit_lt_two_pow hxlt] at hbit
    exact Bool.false_ne_true hbit
  intro hzero
  have hsub : (x <<< c).testBit (Nat.find hex) = false := by
    rw [Nat.testBit_shiftLeft]
    by_cases hlc : c ≤ Nat.find hex
    · have hlow : x.testBit (Nat.find hex - c) = false := hmin _ (by omega)
      simp [hlow]
    · simp [ge_iff_le, hlc]
  have hb2 : ((x ^^^ (x <<< c)) % U32).testBit (Nat.find hex) = true := by
    rw [U32, Nat.testBit_mod_two_pow, Nat.testBit_xor, hsub, hbit]
    simp [hl32]
  rw [hzero] at hb2
  rw [Nat.zero_testBit] at hb2
  exact Bool.false_ne_true hb2

/-- An `x ^= x >> c` step sends nonzero values to nonzero values: the
highest set bit of `x` survives. -/
lemma xs_shr_ne_zero {x : Nat} (c : Nat) (hc : 0 < c) (hx : x ≠ 0) :
    x ^^^ (x >>> c) ≠ 0 := by
  have hle : 2 ^ Nat.log 2 x ≤ x := Nat.pow_log_le_self 2 hx
  have hlt2 : x < 2 ^ (Nat.log 2 x + 1) := Nat.lt_pow_succ_log_self (by omega) x
  have hpos : 0 < 2 ^ Nat.log 2 x := Nat.pos_pow_of_pos _ (by omega)
  have hbit : x.testBit (Nat.log 2 x) = true := by
    rw [Nat.testBit_to_div_mod]
    have hdiv : x / 2 ^ Nat.log 2 x = 1 := by
      have h1 : 1 ≤ x / 2 ^ Nat.log 2 x := (Nat.le_div_iff_mul_le hpos).mpr (by omega)
      have h2 : x / 2 ^ Nat.log 2 x < 2 := by
        rw [Nat.div_lt_iff_lt_mul hpos]
        have h3 : (2 : Nat) ^ (Nat.log 2 x + 1) = 2 ^ Nat.log 2 x * 2 := Nat.pow_succ 2 _
        omega
      omega
    simp [hdiv]
  have hhigh : x.testBit (c + Nat.log 2 x) = false := by
    refine Nat.testBit_lt_two_pow (lt_of_lt_of_le hlt2 (Nat.pow_le_pow_right (by omega) (by omega)))
  intro hzero
  have hb2 : (x ^^^ (x >>> c)).testBit (Nat.log 2 x) = true := by
    rw [Nat.testBit_xor, Nat.testBit_shiftRight, hbit, hhigh]
    rfl
  rw [hzero] at hb2
  rw [Nat.zero_testBit] at hb2
  exact Bool.false_ne_true hb2

/-- One `xorshift32` step preserves both nonzeroness and the 32-bit
bound. -/
lemma xorshift32_step {x : Nat} (hx : x ≠ 0) (hlt : x < U32) :
    xorshift32 x ≠ 0 ∧ xorshift32 x < U32 := by
  have hU : 0 < U32 := by norm_num [U32]
  have h1 : xs1 x ≠ 0 := by
    unfold xs1
    exact xs_shl_ne_zero 13 (by omega) hx hlt
  have h1lt : xs1 x < U32 := Nat.mod_lt _ hU
  have h2 : xs2 (xs1 x) ≠ 0 := by
    unfold xs2
    exact xs_shr_ne_zero 17 (by omega) h1
  have h2lt : xs2 (xs1 x) < U32 := by
    have hd : xs1 x >>> 17 ≤ xs1 x := by
      rw [Nat.shiftRight_eq_div_pow]
      exact Nat.div_le_self _ _
    have hb : xs1 x < 2 ^ 32 := h1lt
    have hb2 : xs1 x >>> 17 < 2 ^ 32 := by omega
    unfold xs2
    exact Nat.xor_lt_two_pow hb hb2
  have h3 : xs3 (xs2 (xs1 x)) ≠ 0 := by
    unfold xs3
    exact xs_shl_ne_zero 5 (by omega) h2 h2lt
  exact ⟨h3, Nat.mod_lt _ hU⟩

/-- C8: a nonzero 32-bit value stays nonzero under one `_xorshift32` step,
and hence a worker RNG seeded with `index + 1` (nonzero as a 32-bit value)
never becomes zero over any number of steps. -/
theorem xorshift32_nonzero (x : Nat) (hx : x ≠ 0) (hlt : x < U32) (n i : Nat)
    (hseed : (i + 1) % U32 ≠ 0) :
    xorshift32 x ≠ 0 ∧ xorshift32^[n] ((i + 1) % U32) ≠ 0 := by
  refine ⟨(xorshift32_step hx hlt).1, ?_⟩
  have hiter : ∀ m y, y ≠ 0 → y < U32 → xorshift32^[m] y ≠ 0 := by
    intro m
    induction m with
    | zero =>
      intro y hy _
      simpa using hy
    | succ m ih =>
      intro y hy hylt
      rw [Function.iterate_succ_apply]
      exact ih _ (xorshift32_step hy hylt).1 (xorshift32_step hy hylt).2
  exact hiter n _ hseed (Nat.mod_lt _ (by norm_num [U32]))

/-- Witness for `xorshift32_nonzero`: the first worker's seed `1` stays
nonzero over two steps. -/
theorem xorshift32_nonzero_witness :
    xorshift32 1 ≠ 0 ∧ xorshift32^[2] ((0 + 1) % U32) ≠ 0 :=
  xorshift32_nonzero 1 (by decide) (by norm_num [U32]) 2 0 (by norm_num [U32])

/-- Membership in the spawn-time coprimes list: exactly the `x ∈ [1, W]`
with `gcd(x, W) = 1`. -/
lemma coprimesUpTo_mem (W x : Nat) :
    x ∈ coprimesUpTo W ↔ 1 ≤ x ∧ x ≤ W ∧ Nat.gcd x W = 1 := by
  unfold coprimesUpTo
  simp only [List.mem_filter, List.mem_map, List.mem_range, beq_iff_eq]
  constructor
  · rintro ⟨⟨a, haW, rfl⟩, hg⟩
    exact ⟨by omega, by omega, hg⟩
  · rintro ⟨h1, h2, h3⟩
    exact ⟨⟨x - 1, by omega, by omega⟩, h3⟩

/-- The coprimes list is enumerated in (strictly) increasing order. -/
lemma coprimesUpTo_sorted (W : Nat) : (coprimesUpTo W).Pairwise (· < ·) := by
  unfold coprimesUpTo
  exact List.Pairwise.filter _
    ((List.pairwise_lt_range W).map _ (fun a b h => by omega))

/-- The conditional-subtraction victim advance equals addition modulo `W`
whenever the incoming victim is in range and the stride is at most `W`. -/
lemma stealStep_eq_mod {W inc v : Nat} (hv : v < W) (hinc : inc ≤ W) :
    stealStep W inc v = (v + inc) % W := by
  unfold stealStep
  by_cases h : v + inc ≥ W
  · rw [if_pos h, Nat.mod_eq_sub_mod h, Nat.mod_eq_of_lt (by omega)]
  · rw [if_neg h, Nat.mod_eq_of_lt (by omega)]

/-- The steal loop's probe sequence is the arithmetic progression
`v, v + inc, v + 2·inc, …` reduced modulo `W`. -/
lemma victimWalk_eq_map {W inc : Nat} (h0 : 0 < W) (hinc : inc ≤ W) :
    ∀ (n v : Nat), v < W →
      victimWalk n W inc v = (List.range n).map (fun i => (v + i * inc) % W) := by
  intro n
  induction n with
  | zero =>
    intro v hv
    simp [victimWalk]
  | succ m ih =>
    intro v hv
    rw [victimWalk, stealStep_eq_mod hv hinc, ih ((v + inc) % W) (Nat.mod_lt _ h0),
      List.range_succ_eq_map]
    simp only [List.map_cons, List.map_map]
    congr 1
    · simp [Nat.mod_eq_of_lt hv]
    · refine List.map_congr_left fun i hi => ?_
      simp only [Function.comp_apply, Nat.succ_eq_add_one]
      rw [Nat.mod_add_mod]
      congr 1
      ring

/-- With a stride coprime to the worker count, the `W` probes of the steal
loop are pairwise distinct, visit every worker index, and number exactly
`W`. -/
lemma walk_visits_all {W inc : Nat} (h0 : 0 < W) (hinc : inc ≤ W)
    (hcop : Nat.gcd inc W = 1) (v : Nat) (hv : v < W) :
    (victimWalk W W inc v).Nodup ∧ (∀ j, j < W → j ∈ victimWalk W W inc v) ∧
      (victimWalk W W inc v).length = W := by
  rw [victimWalk_eq_map h0 hinc W v hv]
  have hinj : ∀ i1 ∈ List.range W, ∀ i2 ∈ List.range W,
      (v + i1 * inc) % W = (v + i2 * inc) % W → i1 = i2 := by
    intro i1 h1 i2 h2 heq
    rw [List.mem_range] at h1 h2
    have hm : i1 * inc ≡ i2 * inc [MOD W] := Nat.ModEq.add_left_cancel' v heq
    have hm2 : inc * i1 ≡ inc * i2 [MOD W] := by
      rwa [Nat.mul_comm i1 inc, Nat.mul_comm i2 inc] at hm
    have hmc : i1 ≡ i2 [MOD W] :=
      Nat.ModEq.cancel_left_of_coprime (by rwa [Nat.gcd_comm] at hcop) hm2
    have hmod : i1 % W = i2 % W := hmc
    rwa [Nat.mod_eq_of_lt h1, Nat.mod_eq_of_lt h2] at hmod
  refine ⟨List.Nodup.map_on hinj (List.nodup_range W), ?_, by simp⟩
  intro j hj
  have hginj : Function.Injective
      (fun i : Fin W => (⟨(v + i.1 * inc) % W, Nat.mod_lt _ h0⟩ : Fin W)) := by
    intro i1 i2 h
    have hval := congrArg Fin.val h
    exact Fin.ext (hinj i1.1 (List.mem_range.mpr i1.2) i2.1 (List.mem_range.mpr i2.2) hval)
  obtain ⟨i, hi⟩ := Finite.injective_iff_surjective.mp hginj ⟨j, hj⟩
  rw [List.mem_map]
  exact ⟨i.1, List.mem_range.mpr i.2, by simpa using congrArg Fin.val hi⟩

/-- C4: after `spawn` on a fresh pool brings the worker count to `n`, the
recomputed `_coprimes` list holds exactly the `k ∈ [1, n]` with
`gcd(k, n) = 1`, in increasing order; and for every stride from that list
and every starting victim below `n`, the steal loop's `n` probes visit
every worker index exactly once. -/
theorem spawn_coprimes_and_steal_walk {T : Type} (p : Pool T) (caller n : Nat)
    (tids : List Nat) (p2 : Pool T) (hn : 0 < n) (hthreads : p._threads = [])
    (howner : caller = p._owner) (hspawn : p.spawn caller n tids = OpOutcome.ok p2) :
    (∀ x, x ∈ p2._coprimes ↔ 1 ≤ x ∧ x ≤ n ∧ Nat.gcd x n = 1) ∧
    p2._coprimes.Pairwise (· < ·) ∧
    (∀ inc ∈ p2._coprimes, ∀ v, v < n →
      (victimWalk n n inc v).Nodup ∧ (∀ j, j < n → j ∈ victimWalk n n inc v) ∧
        (victimWalk n n inc v).length = n) := by
  have hno : ¬ (caller ≠ p._owner) := by simp [howner]
  have hlen : p._threads.length = 0 := by rw [hthreads]; rfl
  unfold Pool.spawn at hspawn
  rw [if_neg hno, if_neg (by omega)] at hspawn
  have h2 : OpOutcome.ok (p.spawnFinish n tids) = OpOutcome.ok p2 := hspawn
  injection h2 with h3
  have h4 : p2._coprimes = coprimesUpTo (p._threads.length + n) := by
    rw [← h3]
    rfl
  rw [hlen, Nat.zero_add] at h4
  refine ⟨?_, ?_, ?_⟩
  · intro x
    rw [h4]
    exact coprimesUpTo_mem n x
  · rw [h4]
    exact coprimesUpTo_sorted n
  · intro inc hinc v hv
    rw [h4] at hinc
    have hm := (coprimesUpTo_mem n inc).mp hinc
    exact walk_visits_all hn hm.2.1 hm.2.2 v hv

/-- Witness for `spawn_coprimes_and_steal_walk`: spawning `4` workers on
the fresh pool yields coprimes `[1, 3]`; the stride `3` from victim `1`
visits all of `0, 1, 2, 3`. -/
theorem spawn_coprimes_and_steal_walk_witness :
    (3 ∈ (wPool.spawnFinish 4 [11, 12, 13, 14])._coprimes ↔
      1 ≤ 3 ∧ 3 ≤ 4 ∧ Nat.gcd 3 4 = 1) ∧
    (victimWalk 4 4 3 1).Nodup ∧ 0 ∈ victimWalk 4 4 3 1 :=
  have h := spawn_coprimes_and_steal_walk wPool 0 4 [11, 12, 13, 14]
    (wPool.spawnFinish 4 [11, 12, 13, 14]) (by omega) rfl rfl rfl
  ⟨h.1 3, (h.2.2 3 (by decide) 1 (by omega)).1, (h.2.2 3 (by decide) 1 (by omega)).2.1 0 (by omega)⟩

/-- C3 counterexample: on a two-worker pool whose round-robin counter
holds `0`, a submission by the owner is routed to worker `1` — the value
of the counter after `++_next_queue` — not to worker
`0 = next_rr mod W` as the claim (pre-increment value) would have it. -/
theorem router_pre_increment_counterexample :
    (cPool.silent_async 7 5).2 = SubmitEffect.routedPush 1 ∧
    cPool._next_queue % cPool._works.length = 0 ∧ (1 : Nat) ≠ 0 := by
  refine ⟨by decide, by decide, by decide⟩

/-- C3 (amended): a submission by the owner, or by an external thread not
registered in the worker map, on a pool with at least one worker, is
routed to `id = ((next_queue + 1) mod 2^64) mod _works.size()` — the
round-robin counter value after the `++` increment; `push_back` is then
attempted on worker `id`'s queue, falling back to the shared overflow
queue when full, and worker `id`'s condition variable is signalled. -/
theorem router_uses_incremented_counter {T : Type} (p : Pool T) (caller : Nat) (t : T)
    (hW : ¬ (p.num_workers = 0))
    (hroute : caller = p._owner ∨ findWorker p._worker_map caller = none) :
    (((p._works.getD (((p._next_queue + 1) % U64) % p._works.length)
        (RunQueue.init T)).push_back QN t).1 = true →
      p.silent_async caller t =
        ({ p with
            _next_queue := (p._next_queue + 1) % U64
            _works := p._works.set (((p._next_queue + 1) % U64) % p._works.length)
              ((p._works.getD (((p._next_queue + 1) % U64) % p._works.length)
                (RunQueue.init T)).push_back QN t).2 },
         SubmitEffect.routedPush (((p._next_queue + 1) % U64) % p._works.length))) ∧
    (((p._works.getD (((p._next_queue + 1) % U64) % p._works.length)
        (RunQueue.init T)).push_back QN t).1 = false →
      p.silent_async caller t =
        ({ p with
            _next_queue := (p._next_queue + 1) % U64
            _task_queue := p._task_queue ++ [t] },
         SubmitEffect.routedOverflow (((p._next_queue + 1) % U64) % p._works.length))) ∧
    (p.silent_async caller t).2.notifies =
      some (((p._next_queue + 1) % U64) % p._works.length) := by
  have hsc : (if caller ≠ p._owner then findWorker p._worker_map caller else none) =
      (none : Option Nat) := by
    rcases hroute with h | h
    · rw [if_neg (by simp [h])]
    · by_cases ho : caller ≠ p._owner
      · rw [if_pos ho, h]
      · rw [if_neg ho]
  unfold Pool.silent_async
  simp only [if_neg hW, hsc]
  refine ⟨?_, ?_, ?_⟩
  · intro hr
    simp only [if_pos hr]
  · intro hr
    simp only [hr]
    rfl
  · by_cases hr : ((p._works.getD (((p._next_queue + 1) % U64) % p._works.length)
        (RunQueue.init T)).push_back QN t).1 = true
    · simp only [if_pos hr]
      rfl
    · simp only [if_neg hr]
      rfl

/-- Witness for `router_uses_incremented_counter` on the concrete
two-worker pool: the push succeeds on worker `1` and worker `1` is
signalled. -/
theorem router_uses_incremented_counter_witness :
    cPool.silent_async 7 5 =
      ({ cPool with
          _next_queue := (cPool._next_queue + 1) % U64
          _works := cPool._works.set (((cPool._next_queue + 1) % U64) % cPool._works.length)
            ((cPool._works.getD (((cPool._next_queue + 1) % U64) % cPool._works.length)
              (RunQueue.init Nat)).push_back QN 5).2 },
       SubmitEffect.routedPush (((cPool._next_queue + 1) % U64) % cPool._works.length)) ∧
    (cPool.silent_async 7 5).2.notifies =
      some (((cPool._next_queue + 1) % U64) % cPool._works.length) :=
  have h := router_uses_incremented_counter cPool 7 5 (by decide) (Or.inl rfl)
  ⟨h.1 (by decide), h.2.2⟩

/-- C5: `spawn`, `shutdown` and `wait_for_all` called from any thread other
than the owner raise the corresponding `runtime_error` and return the pool
state unchanged; afterwards the owner's own calls still take their normal
path (shown here completing on a pool with no threads, where none of them
blocks). -/
theorem non_owner_lifecycle_calls_fail {T : Type} (p : Pool T) (caller n : Nat)
    (tids : List Nat) (d : T) (hc : caller ≠ p._owner) :
    p.spawn caller n tids = OpOutcome.err "Worker thread cannot spawn threads" p ∧
    p.shutdown caller d = OpOutcome.err "Worker thread cannot shut down the pool" p ∧
    p.wait_for_all caller = OpOutcome.err "Worker thread cannot wait for all" p ∧
    (p._threads = [] →
      p.spawn p._owner n tids = OpOutcome.ok (p.spawnFinish n tids) ∧
      p.shutdown p._owner d = OpOutcome.ok p ∧
      p.wait_for_all p._owner = OpOutcome.ok p) := by
  refine ⟨?_, ?_, ?_, ?_⟩
  · unfold Pool.spawn
    rw [if_pos hc]
  · unfold Pool.shutdown
    rw [if_pos hc]
  · unfold Pool.wait_for_all
    rw [if_pos hc]
  · intro hthreads
    have hlen : p._threads.length = 0 := by
      rw [hthreads]
      rfl
    refine ⟨?_, ?_, ?_⟩
    · unfold Pool.spawn
      rw [if_neg (by simp), if_neg (by omega)]
    · unfold Pool.shutdown
      rw [if_neg (by simp), if_pos hlen]
    · unfold Pool.wait_for_all
      rw [if_neg (by simp), if_pos (show p.num_workers = 0 from hlen)]

/-- Witness for `non_owner_lifecycle_calls_fail`: thread `3` is rejected by
the fresh pool owned by thread `0`, and the owner's calls still succeed. -/
theorem non_owner_lifecycle_calls_fail_witness :
    wPool.spawn 3 1 [9] = OpOutcome.err "Worker thread cannot spawn threads" wPool ∧
    wPool.shutdown 3 0 = OpOutcome.err "Worker thread cannot shut down the pool" wPool ∧
    wPool.wait_for_all wPool._owner = OpOutcome.ok wPool :=
  have h := non_owner_lifecycle_calls_fail wPool 3 1 [9] 0 (by decide)
  ⟨h.1, h.2.1, (h.2.2.2 rfl).2.2⟩

/-- C6: a submission from a thread registered in the worker map (a worker,
not the owner) first attempts `push_front` on that worker's own queue; on
success it returns with the task in place and no condition variable
signalled, and on failure it appends the task to the shared overflow queue
(under the pool mutex) and returns, again without signalling. -/
theorem worker_self_submission {T : Type} (p : Pool T) (caller : Nat) (t : T) (idx : Nat)
    (hW : ¬ (p.num_workers = 0)) (hc : caller ≠ p._owner)
    (hfind : findWorker p._worker_map caller = some idx) :
    (((p._works.getD idx (RunQueue.init T)).push_front QN t).1 = true →
      p.silent_async caller t =
        ({ p with _works := p._works.set idx ((p._works.getD idx (RunQueue.init T)).push_front QN t).2 },
         SubmitEffect.selfPush idx)) ∧
    (((p._works.getD idx (RunQueue.init T)).push_front QN t).1 = false →
      p.silent_async caller t =
        ({ p with _task_queue := p._task_queue ++ [t] }, SubmitEffect.selfOverflow idx)) ∧
    (p.silent_async caller t).2.notifies = none := by
  have hsc : (if caller ≠ p._owner then findWorker p._worker_map caller else none) =
      some idx := by
    rw [if_pos hc, hfind]
  unfold Pool.silent_async
  simp only [if_neg hW, hsc]
  refine ⟨?_, ?_, ?_⟩
  · intro hr
    simp only [if_pos hr]
  · intro hr
    simp only [hr]
    rfl
  · by_cases hr : ((p._works.getD idx (RunQueue.init T)).push_front QN t).1 = true
    · simp only [if_pos hr]
      rfl
    · simp only [if_neg hr]
      rfl

/-- Witness for `worker_self_submission`: worker thread `101` pushes onto
its own queue `0` and nobody is signalled. -/
theorem worker_self_submission_witness :
    cPool.silent_async 101 5 =
      ({ cPool with _works := cPool._works.set 0 ((cPool._works.getD 0 (RunQueue.init Nat)).push_front QN 5).2 },
       SubmitEffect.selfPush 0) ∧
    (cPool.silent_async 101 5).2.notifies = none :=
  have h := worker_self_submission cPool 101 5 0 (by decide) (by decide) (by decide)
  ⟨h.1 (by decide), h.2.2⟩

/-- C7: on a pool with zero workers every submission runs the task inline
on the caller's thread before returning (`SubmitEffect.inline`, pool
unchanged); the result-returning variant returns with the future already
holding the callable's result; and `wait_for_all` called by the owner
returns immediately. -/
theorem zero_workers_inline {T R : Type} (p : Pool T) (caller : Nat) (t : T)
    (c : Unit → R) (shim : T) (h0 : p.num_workers = 0) :
    p.silent_async caller t = (p, SubmitEffect.inline t) ∧
    p.async caller c shim = (p, none, some (c ())) ∧
    p.wait_for_all p._owner = OpOutcome.ok p := by
  refine ⟨?_, ?_, ?_⟩
  · unfold Pool.silent_async
    rw [if_pos h0]
  · unfold Pool.async
    rw [if_pos h0]
  · unfold Pool.wait_for_all
    rw [if_neg (by simp), if_pos h0]

/-- Witness for `zero_workers_inline` on the fresh zero-worker pool. -/
theorem zero_workers_inline_witness :
    wPool.silent_async 9 5 = (wPool, SubmitEffect.inline 5) ∧
    wPool.async 9 (fun _ => (42 : Nat)) 0 = (wPool, none, some 42) ∧
    wPool.wait_for_all wPool._owner = OpOutcome.ok wPool :=
  have h := zero_workers_inline wPool 9 5 (fun _ => (42 : Nat)) 0 rfl
  ⟨h.1, h.2.1, h.2.2⟩

/-- C9: `num_tasks()` returns exactly the length of the shared overflow
queue `_task_queue`: it does not depend on the workers' private queues, and
a submission absorbed by a worker's private queue (`selfPush`) leaves it
unchanged even though the pool now holds one more pending task. -/
theorem num_tasks_overflow_only {T : Type} (p : Pool T) (works2 : List (RunQueue T))
    (caller : Nat) (t : T) (idx : Nat) :
    p.num_tasks = p._task_queue.length ∧
    Pool.num_tasks { p with _works := works2 } = p.num_tasks ∧
    ((p.silent_async caller t).2 = SubmitEffect.selfPush idx →
      (p.silent_async caller t).1.num_tasks = p.num_tasks) := by
  refine ⟨rfl, rfl, ?_⟩
  intro heff
  unfold Pool.silent_async at heff ⊢
  by_cases h0 : p.num_workers = 0
  · rw [if_pos h0] at heff
    simp at heff
  · rcases hsc0 : (if caller ≠ p._owner then findWorker p._worker_map caller else none)
      with _ | j
    · simp only [if_neg h0, hsc0] at heff ⊢
      by_cases hr : ((p._works.getD (((p._next_queue + 1) % U64) % p._works.length)
          (RunQueue.init T)).push_back QN t).1 = true
      · simp only [if_pos hr] at heff
        simp at heff
      · simp only [if_neg hr] at heff
        simp at heff
    · simp only [if_neg h0, hsc0] at heff ⊢
      by_cases hr : ((p._works.getD j (RunQueue.init T)).push_front QN t).1 = true
      · simp only [if_pos hr]
        rfl
      · simp only [if_neg hr] at heff
        simp at heff

/-- Witness for `num_tasks_overflow_only`: worker `101`'s self-push leaves
`num_tasks()` at zero. -/
theorem num_tasks_overflow_only_witness :
    (cPool.silent_async 101 5).1.num_tasks = cPool.num_tasks :=
  (num_tasks_overflow_only cPool [] 101 5 0).2.2 (by decide)

end tf
